import Mathlib

/-!
Verification development for the mpscraper repository.

Python strings are embedded as `List Char`; `None`-able values as `Option`;
machine behaviour that raises exceptions is made explicit in result types.
Character classes model the ASCII behaviour of the Python predicates, which is
the range exercised by the scraper (the portal emits ASCII identifiers).
-/

namespace Mpscraper

/-- Shorthand used throughout: a Python string as a list of characters. -/
abbrev PyStr := List Char

/-- ASCII decimal digit, the model of the regex class `\d` (`re` module,
ASCII range) used by `NON_DIGITS_RE` and `STANDARD_IDN_RE`. -/
def isDigitC (c : Char) : Bool := 48 ≤ c.toNat && c.toNat ≤ 57

/-- Characters matched by `[\d.]` in `STANDARD_IDN_RE`. -/
def isBodyC (c : Char) : Bool := isDigitC c || c.toNat == 46

/-- Python `str.strip` whitespace class (space, tab, newline, return,
vertical tab, form feed). -/
def isSpaceC (c : Char) : Bool :=
  c.toNat == 32 || c.toNat == 9 || c.toNat == 10 ||
  c.toNat == 13 || c.toNat == 11 || c.toNat == 12

/-- Python `str.lower` restricted to ASCII letters. -/
def pyLower (c : Char) : Char :=
  if 65 ≤ c.toNat ∧ c.toNat ≤ 90 then Char.ofNat (c.toNat + 32) else c

/-- Python `str.upper` restricted to ASCII letters (used by `str.capitalize`). -/
def pyUpper (c : Char) : Char :=
  if 97 ≤ c.toNat ∧ c.toNat ≤ 122 then Char.ofNat (c.toNat - 32) else c

/-- Python `str.strip()`: drop leading and trailing whitespace. -/
def pyStrip (l : PyStr) : PyStr :=
  ((l.dropWhile isSpaceC).reverse.dropWhile isSpaceC).reverse

/-- Python `str.capitalize()`: first character uppercased, the rest lowered. -/
def pyCapitalize : PyStr → PyStr
  | [] => []
  | c :: rest => pyUpper c :: rest.map pyLower

/-- `sep.join(parts)` for a one-character separator `sep`. -/
def pyJoin (sep : Char) : List PyStr → PyStr
  | [] => []
  | [x] => x
  | x :: y :: rest => x ++ sep :: pyJoin sep (y :: rest)

/-- `s.split(sep)` for a one-character separator: keeps empty pieces,
`"".split(sep) == [""]`. -/
def pySplit (sep : Char) : PyStr → List PyStr
  | [] => [[]]
  | c :: rest =>
    if c = sep then [] :: pySplit sep rest
    else
      match pySplit sep rest with
      | w :: ws => (c :: w) :: ws
      | [] => [[c]]

/-- Numeric value of an ASCII digit character (Python `int(c)`; the source
only ever applies it to decimal digits, anything else would raise). -/
def digitVal (c : Char) : Nat := c.toNat - 48

/-- Python `str(n)` for a single decimal digit value. -/
def digitChar : Nat → Char
  | 0 => '0' | 1 => '1' | 2 => '2' | 3 => '3' | 4 => '4'
  | 5 => '5' | 6 => '6' | 7 => '7' | 8 => '8' | _ => '9'

/-- Fuel-driven core of `util.chunks`: `chunksF fuel size seq` splits `seq`
into pieces of `size` elements, the last piece possibly shorter.  The fuel
only certifies termination; `chunks_cons` below recovers the source's own
recursion equation. -/
def chunksF {α : Type} (fuel size : Nat) (l : List α) : List (List α) :=
  match l, size, fuel with
  | [], _, _ => []
  | _ :: _, 0, _ => []
  | _ :: _, _ + 1, 0 => []
  | a :: rest, k + 1, fuel + 1 => (a :: rest.take k) :: chunksF fuel (k + 1) (rest.drop k)

/-- `util.chunks(seq, chunk_size)`: the sequence split into parts of
`chunk_size` elements, the last part possibly shorter (the source asserts
`chunk_size > 0`; with `chunk_size = 0` this model returns `[]`). -/
def chunks {α : Type} (size : Nat) (l : List α) : List (List α) :=
  chunksF l.length size l

theorem chunksF_nil {α : Type} (fuel k : Nat) : chunksF fuel k ([] : List α) = [] := by
  cases fuel <;> cases k <;> rfl

theorem chunksF_fuel_irrelevant {α : Type} :
    ∀ (fuel fuel' k : Nat) (l : List α), l.length ≤ fuel → l.length ≤ fuel' →
      chunksF fuel k l = chunksF fuel' k l := by
  intro fuel
  induction fuel with
  | zero =>
    intro fuel' k l h _
    cases l with
    | nil => rw [chunksF_nil, chunksF_nil]
    | cons a rest => simp at h
  | succ n ih =>
    intro fuel' k l h h'
    cases l with
    | nil => rw [chunksF_nil, chunksF_nil]
    | cons a rest =>
      cases k with
      | zero => cases fuel' with
        | zero => simp at h'
        | succ m => rfl
      | succ k =>
        cases fuel' with
        | zero => simp at h'
        | succ m =>
          simp only [chunksF]
          have hd := List.length_drop k rest
          have hl : rest.length + 1 ≤ n + 1 := by simpa using h
          have hl' : rest.length + 1 ≤ m + 1 := by simpa using h'
          rw [ih m (k + 1) (rest.drop k) (by omega) (by omega)]

/-- The defining recursion of `util.chunks` for a positive chunk size:
`chunks(seq, k+1)` yields `seq[0:k+1]` followed by the chunks of the rest. -/
theorem chunks_cons {α : Type} (k : Nat) (a : α) (rest : List α) :
    chunks (k + 1) (a :: rest) = (a :: rest.take k) :: chunks (k + 1) (rest.drop k) := by
  show chunksF (a :: rest).length (k + 1) (a :: rest) = _
  simp only [List.length_cons, chunksF]
  refine congrArg _ ?_
  apply chunksF_fuel_irrelevant
  · have := List.length_drop k rest; omega
  · exact Nat.le_refl _

theorem chunks_nil {α : Type} (k : Nat) : chunks k ([] : List α) = [] := rfl

/-- Splitting into chunks loses no element and keeps the order. -/
theorem chunks_join {α : Type} (k : Nat) : ∀ (l : List α),
    (chunks (k + 1) l).flatten = l
  | [] => rfl
  | a :: rest => by
    rw [chunks_cons]
    have ih := chunks_join k (rest.drop k)
    simp [ih]
termination_by l => l.length
decreasing_by
  simp only [List.length_cons]
  have := List.length_drop k rest
  omega

/-- Every chunk except possibly the last holds exactly `k + 1` elements. -/
theorem chunks_full {α : Type} (k : Nat) : ∀ (l : List α) (i : Nat),
    i + 1 < (chunks (k + 1) l).length →
      ((chunks (k + 1) l).getD i []).length = k + 1
  | [], i, h => by rw [chunks_nil] at h; simp at h
  | a :: rest, i, h => by
    rw [chunks_cons] at h ⊢
    cases i with
    | zero =>
      simp only [List.getD_cons_zero]
      by_cases hk : k ≤ rest.length
      · simp [List.length_take, Nat.min_eq_left hk]
      · exfalso
        have hdrop : rest.drop k = [] := List.drop_eq_nil_of_le (by omega)
        rw [hdrop, chunks_nil] at h
        simp at h
    | succ j =>
      simp only [List.getD_cons_succ]
      simp only [List.length_cons] at h
      exact chunks_full k (rest.drop k) j (by omega)
termination_by l => l.length
decreasing_by
  simp only [List.length_cons]
  have := List.length_drop k rest
  omega

/-! ## `validators.rut_last_digit` (validators.py lines 90-105) -/

/-- The weighted sum of `rut_last_digit`: digit `i` of the reversed body
(least significant first) is weighted by the cycle 2,3,4,5,6,7
(`itertools.cycle(range(2, 8))`). -/
def rutWeightedSum : Nat → PyStr → Nat
  | _, [] => 0
  | i, c :: cs => (2 + i % 6) * digitVal c + rutWeightedSum (i + 1) cs

/-- `validators.rut_last_digit`: check character for a national-ID body
without its check digit. -/
def rut_last_digit (body : PyStr) : Char :=
  let digit := 11 - rutWeightedSum 0 body.reverse % 11
  if digit = 11 then '0' else if digit = 10 then 'k' else digitChar digit

/-! Spec-side restatement of the mod-11 rule, written from the claim's words:
each digit value, taken least significant first, is multiplied by a weight
cycling through the list 2,3,4,5,6,7; the result `11 - (sum mod 11)` maps 11
to `'0'`, 10 to `'k'`, and anything else to its own decimal digit. -/

/-- The cycling weight list of the documented rule. -/
def specWeights : List Nat := [2, 3, 4, 5, 6, 7]

/-- Weighted sum of the documented rule over digit values (least significant
digit first). -/
def specWeightedSum : Nat → List Nat → Nat
  | _, [] => 0
  | i, d :: ds => d * specWeights.getD (i % 6) 0 + specWeightedSum (i + 1) ds

/-- The documented mod-11 rule as a function from the digit values of the
body, least significant first, to the check character. -/
def specCheckChar (ds : List Nat) : Char :=
  let r := 11 - specWeightedSum 0 ds % 11
  if r = 11 then '0' else if r = 10 then 'k' else digitChar r

theorem rutWeightedSum_eq_spec (l : PyStr) :
    ∀ i, rutWeightedSum i l = specWeightedSum i (l.map digitVal) := by
  induction l with
  | nil => intro i; rfl
  | cons c cs ih =>
    intro i
    have hw : specWeights.getD (i % 6) 0 = 2 + i % 6 := by
      have h6 : i % 6 < 6 := Nat.mod_lt _ (by omega)
      interval_cases h : (i % 6) <;> rfl
    simp only [rutWeightedSum, List.map_cons, specWeightedSum, hw, ih (i + 1)]
    ring

/-- Claim C1: `rut_last_digit` computes the check character of a digit body by
the documented weighted mod-11 rule (weights cycling 2..7 over digits from
least to most significant; `11 - (sum mod 11)` with 11 mapped to `'0'`, 10 to
`'k'`, otherwise the digit itself).  Being a pure function of its argument,
repeated calls on the same body necessarily return the same character. -/
theorem rut_last_digit_matches_mod11_rule (body : PyStr)
    (hdig : ∀ c ∈ body, isDigitC c = true) :
    rut_last_digit body = specCheckChar (body.reverse.map digitVal) := by
  have _ := hdig
  simp only [rut_last_digit, specCheckChar, rutWeightedSum_eq_spec]

/-- Witness for C1 at the concrete body `"12345678"` of the spec: all its
characters are digits, and the computed check character is `'5'` (and, the
function being pure, any repeated call returns `'5'` again). -/
theorem rut_last_digit_matches_mod11_rule_witness :
    (∀ c ∈ ("12345678").toList, isDigitC c = true) ∧
      rut_last_digit (("12345678").toList) =
        specCheckChar ((("12345678").toList).reverse.map digitVal) ∧
      rut_last_digit (("12345678").toList) = '5' := by
  refine ⟨by decide, rut_last_digit_matches_mod11_rule _ (by decide), by decide⟩

/-! ## `validators.validate_rut` (validators.py lines 108-151) -/

/-- Outcome of `validate_rut`: a normalized ID, the Python literal `False`
(lenient mode), a raised `ValidationError` (carrying the offending value, the
validation kind and the reason; `validate_rut` never passes a position), or an
uncaught exception (`IndexError` from `body[-1]` on an empty string). -/
inductive RutResult where
  | ok (s : PyStr)
  | sentinel
  | error (value : Option PyStr) (parsing : PyStr) (reason : PyStr)
  | crash
deriving DecidableEq

/-- `validators._throw_leniently`: return the `False` sentinel in lenient
mode, raise a `ValidationError` otherwise. -/
def throwLeniently (lenient : Bool) (value : Option PyStr) (parsing reason : PyStr) :
    RutResult :=
  if lenient then .sentinel else .error value parsing reason

/-- The validation kind `"RUT"` (`_PARSING` in `validate_rut`). -/
def rutKind : PyStr := ("RUT").toList

/-- Reason `"está vacío"`. -/
def emptyReason : PyStr := ("está vacío").toList

/-- Reason `"el dígito verificador no corresponde"`. -/
def mismatchReason : PyStr := ("el dígito verificador no corresponde").toList

/-- Reason `"demasiado corto"`. -/
def shortReason : PyStr := ("demasiado corto").toList

/-- `STANDARD_IDN_RE.match(r)` for the anchored pattern `([\d.]+)-(\d|k)` with
`re.IGNORECASE`.  Because `-` is not in `[\d.]`, the greedy first group can
only be the maximal prefix of digits and dots, and backtracking can never
succeed elsewhere: a match exists exactly when that nonempty prefix is
followed by `-` and a digit or `k`/`K`.  Returns the two groups. -/
def standardIdnMatch (r : PyStr) : Option (PyStr × Char) :=
  match r.takeWhile isBodyC, r.dropWhile isBodyC with
  | [], _ => none
  | g1, '-' :: c :: _ =>
    if isDigitC c || c = 'k' || c = 'K' then some (g1, c) else none
  | _, _ => none

/-- The re-dotting of the body (validate_rut lines 147-149):
`"".join(reversed(".".join(chunks("".join(reversed(body)), 3))))`. -/
def dotFmt (body : PyStr) : PyStr :=
  (pyJoin '.' (chunks 3 body.reverse)).reverse

/-- The final formatting of `validate_rut` (lines 147-151): optional
re-dotting, then `f"{body}-{last_digit}".lower()`. -/
def rutFinish (body : PyStr) (last : Char) (dotted : Bool) : PyStr :=
  (((if dotted then dotFmt body else body) ++ '-' :: [last]).map pyLower)

/-- The tail of `validate_rut` (lines 143-151): reject bodies shorter than
six digits, then format. -/
def rutCheckLenAndFinish (lenient dotted : Bool) (rl body : PyStr) (last : Char) :
    RutResult :=
  if body.length < 6 then throwLeniently lenient (some rl) rutKind shortReason
  else .ok (rutFinish body last dotted)

/-- `validators.validate_rut`.  The argument is `Option PyStr` because the
parser passes the possibly-`None` result of an element lookup; `None` takes
the same falsy branch as the empty string. -/
def validate_rut (rut : Option PyStr) (lenient : Bool) (dotted : Bool) : RutResult :=
  match rut with
  | none => throwLeniently lenient none rutKind emptyReason
  | some s =>
    let rl := (pyStrip s).map pyLower
    if rl = [] then throwLeniently lenient (some rl) rutKind emptyReason
    else
      match standardIdnMatch rl with
      | some (g1, g2) =>
        let body := g1.filter isDigitC
        if rut_last_digit body ≠ g2 then
          throwLeniently lenient (some rl) rutKind mismatchReason
        else rutCheckLenAndFinish lenient dotted rl body g2
      | none =>
        let body := rl.filter isDigitC
        match body.getLast? with
        | none => .crash
        | some last =>
          if rut_last_digit body.dropLast = last then
            rutCheckLenAndFinish lenient dotted rl body.dropLast last
          else
            rutCheckLenAndFinish lenient dotted rl body (rut_last_digit body)

/-! Helper lemmas for the canonical-form analysis of `validate_rut`. -/

theorem map_id_of_mem {α : Type} {f : α → α} {l : List α}
    (h : ∀ c ∈ l, f c = c) : l.map f = l := by
  induction l with
  | nil => rfl
  | cons a rest ih =>
    simp only [List.map_cons, h a (by simp)]
    rw [ih (fun c hc => h c (by simp [hc]))]

theorem dropWhile_all_false {α : Type} {p : α → Bool} {l : List α}
    (h : ∀ c ∈ l, p c = false) : l.dropWhile p = l := by
  cases l with
  | nil => rfl
  | cons a rest => simp [List.dropWhile_cons, h a (by simp)]

theorem pyStrip_eq_self {l : PyStr} (h : ∀ c ∈ l, isSpaceC c = false) :
    pyStrip l = l := by
  unfold pyStrip
  rw [dropWhile_all_false h, dropWhile_all_false (by intro c hc; exact h c (by simpa using hc))]
  simp

theorem takeWhile_split {α : Type} {p : α → Bool} {pre : List α} {x : α} {rest : List α}
    (hpre : ∀ c ∈ pre, p c = true) (hx : p x = false) :
    (pre ++ x :: rest).takeWhile p = pre ∧ (pre ++ x :: rest).dropWhile p = x :: rest := by
  induction pre with
  | nil => simp [List.takeWhile_cons, List.dropWhile_cons, hx]
  | cons a as ih =>
    have ha : p a = true := hpre a (by simp)
    have hih := ih (fun c hc => hpre c (by simp [hc]))
    simp [List.takeWhile_cons, List.dropWhile_cons, ha, hih.1, hih.2]

theorem mem_pyJoin {sep : Char} {c : Char} : ∀ {L : List PyStr},
    c ∈ pyJoin sep L → c = sep ∨ ∃ x ∈ L, c ∈ x := by
  intro L
  induction L with
  | nil => intro h; cases h
  | cons x L ih =>
    cases L with
    | nil =>
      intro h
      right
      exact ⟨x, by simp, by simpa using h⟩
    | cons y rest =>
      intro h
      simp only [pyJoin, List.mem_append, List.mem_cons] at h
      rcases h with h | h | h
      · right; exact ⟨x, by simp, h⟩
      · left; exact h
      · rcases ih h with h' | ⟨z, hz, hc⟩
        · left; exact h'
        · right; exact ⟨z, by simp [List.mem_cons] at hz ⊢; tauto, hc⟩

theorem filter_pyJoin {p : Char → Bool} {sep : Char} (hsep : p sep = false) :
    ∀ (L : List PyStr), (pyJoin sep L).filter p = L.flatten.filter p := by
  intro L
  induction L with
  | nil => rfl
  | cons x L ih =>
    cases L with
    | nil => simp [pyJoin]
    | cons y rest =>
      simp only [pyJoin, List.flatten_cons, List.filter_append] at ih ⊢
      rw [List.filter_cons_of_neg (by simp [hsep])] at *
      rw [ih]

theorem mem_chunk_mem {α : Type} {k : Nat} {l x : List α} {c : α}
    (hx : x ∈ chunks (k + 1) l) (hc : c ∈ x) : c ∈ l := by
  have := chunks_join k l
  rw [← this]
  exact List.mem_flatten.mpr ⟨x, hx, hc⟩

theorem isDigitC_isBodyC {c : Char} (h : isDigitC c = true) : isBodyC c = true := by
  simp [isBodyC, h]

theorem mem_dotFmt_isBody {body : PyStr} (hb : ∀ c ∈ body, isDigitC c = true) :
    ∀ c ∈ dotFmt body, isBodyC c = true := by
  intro c hc
  unfold dotFmt at hc
  rw [List.mem_reverse] at hc
  rcases mem_pyJoin hc with h | ⟨x, hx, hcx⟩
  · subst h; decide
  · have : c ∈ body.reverse := mem_chunk_mem (k := 2) hx hcx
    exact isDigitC_isBodyC (hb c (by simpa using this))

theorem filter_dotFmt {body : PyStr} (hb : ∀ c ∈ body, isDigitC c = true) :
    (dotFmt body).filter isDigitC = body := by
  unfold dotFmt
  rw [List.filter_reverse]
  rw [filter_pyJoin (by decide) (chunks 3 body.reverse)]
  have hj : (chunks 3 body.reverse).flatten = body.reverse := chunks_join 2 _
  rw [hj]
  rw [List.filter_eq_self.mpr (by intro c hc; exact hb c (by simpa using hc))]
  simp

theorem rut_last_digit_digit_or_k (body : PyStr) :
    isDigitC (rut_last_digit body) = true ∨ rut_last_digit body = 'k' := by
  unfold rut_last_digit
  set x := rutWeightedSum 0 body.reverse % 11 with hx
  have hxlt : x < 11 := Nat.mod_lt _ (by omega)
  by_cases h11 : 11 - x = 11
  · left; rw [if_pos h11]; decide
  · rw [if_neg h11]
    by_cases h10 : 11 - x = 10
    · right; rw [if_pos h10]
    · rw [if_neg h10]
      left
      have h1 : 1 ≤ 11 - x := by omega
      have h9 : 11 - x ≤ 9 := by omega
      interval_cases h : (11 - x) <;> decide

theorem isDigitC_pyLower_id {c : Char} (h : isDigitC c = true) : pyLower c = c := by
  simp only [isDigitC, Bool.and_eq_true, decide_eq_true_eq] at h
  simp only [pyLower]
  rw [if_neg (by omega)]

theorem isBodyC_pyLower_id {c : Char} (h : isBodyC c = true) : pyLower c = c := by
  simp only [isBodyC, Bool.or_eq_true, beq_iff_eq] at h
  rcases h with h | h
  · exact isDigitC_pyLower_id h
  · simp only [pyLower]
    rw [if_neg (by omega)]

theorem isDigitC_not_space {c : Char} (h : isDigitC c = true) : isSpaceC c = false := by
  simp only [isDigitC, Bool.and_eq_true, decide_eq_true_eq] at h
  simp only [isSpaceC]
  have h32 : (c.toNat == 32) = false := by simp; omega
  have h9 : (c.toNat == 9) = false := by simp; omega
  have h10 : (c.toNat == 10) = false := by simp; omega
  have h13 : (c.toNat == 13) = false := by simp; omega
  have h11 : (c.toNat == 11) = false := by simp; omega
  have h12 : (c.toNat == 12) = false := by simp; omega
  simp [h32, h9, h10, h13, h11, h12]

theorem isBodyC_not_space {c : Char} (h : isBodyC c = true) : isSpaceC c = false := by
  simp only [isBodyC, Bool.or_eq_true, beq_iff_eq] at h
  rcases h with h | h
  · exact isDigitC_not_space h
  · simp only [isSpaceC]
    have h32 : (c.toNat == 32) = false := by simp; omega
    have h9 : (c.toNat == 9) = false := by simp; omega
    have h10 : (c.toNat == 10) = false := by simp; omega
    have h13 : (c.toNat == 13) = false := by simp; omega
    have h11 : (c.toNat == 11) = false := by simp; omega
    have h12 : (c.toNat == 12) = false := by simp; omega
    simp [h32, h9, h10, h13, h11, h12]

/-- In every successful path of `validate_rut`, the result is the formatted
pair of a digit body of length at least 6 and its computed check digit. -/
theorem validate_rut_ok_shape {rut : Option PyStr} {lenient dotted : Bool} {s : PyStr}
    (h : validate_rut rut lenient dotted = .ok s) :
    ∃ body last, (∀ c ∈ body, isDigitC c = true) ∧ 6 ≤ body.length ∧
      rut_last_digit body = last ∧ s = rutFinish body last dotted := by
  have throw_ne : ∀ v p r, throwLeniently lenient v p r ≠ .ok s := by
    intro v p r
    unfold throwLeniently
    cases lenient <;> simp
  have finish_ok : ∀ rl body last,
      rutCheckLenAndFinish lenient dotted rl body last = .ok s →
        6 ≤ body.length ∧ s = rutFinish body last dotted := by
    intro rl body last hf
    unfold rutCheckLenAndFinish at hf
    split at hf
    · exact absurd hf (throw_ne _ _ _)
    · exact ⟨by omega, (RutResult.ok.injEq _ _ ▸ hf).symm⟩
  cases rut with
  | none => exact absurd h (throw_ne _ _ _)
  | some str =>
    simp only [validate_rut] at h
    split at h
    · exact absurd h (throw_ne _ _ _)
    · rename_i hnil
      cases hm : standardIdnMatch ((pyStrip str).map pyLower) with
      | some g =>
        obtain ⟨g1, g2⟩ := g
        simp only [hm] at h
        split at h
        · exact absurd h (throw_ne _ _ _)
        · rename_i hne
          rw [not_not] at hne
          obtain ⟨hlen, hs⟩ := finish_ok _ _ _ h
          exact ⟨g1.filter isDigitC, g2,
            fun c hc => List.of_mem_filter hc, hlen, hne, hs⟩
      | none =>
        simp only [hm] at h
        cases hlast : (((pyStrip str).map pyLower).filter isDigitC).getLast? with
        | none => simp only [hlast] at h; cases h
        | some last =>
          simp only [hlast] at h
          have hdig : ∀ c ∈ ((pyStrip str).map pyLower).filter isDigitC,
              isDigitC c = true := fun c hc => List.of_mem_filter hc
          split at h
          · rename_i hguess
            obtain ⟨hlen, hs⟩ := finish_ok _ _ _ h
            exact ⟨_, last, fun c hc => hdig c (List.dropLast_sublist _ |>.subset hc),
              hlen, hguess, hs⟩
          · obtain ⟨hlen, hs⟩ := finish_ok _ _ _ h
            exact ⟨_, _, hdig, hlen, rfl, hs⟩

/-- On a digit body and a digit-or-`k` check character, the final
`.lower()` of `rutFinish` is the identity. -/
theorem rutFinish_raw {body : PyStr} {last : Char} (dotted : Bool)
    (hb : ∀ c ∈ body, isDigitC c = true)
    (hdk : isDigitC last = true ∨ last = 'k') :
    rutFinish body last dotted = (if dotted then dotFmt body else body) ++ ['-', last] := by
  unfold rutFinish
  apply map_id_of_mem
  intro c hc
  rw [List.mem_append] at hc
  rcases hc with hc | hc
  · have hcb : isBodyC c = true := by
      cases dotted with
      | true => exact mem_dotFmt_isBody hb c (by simpa using hc)
      | false => exact isDigitC_isBodyC (hb c (by simpa using hc))
    exact isBodyC_pyLower_id hcb
  · simp only [List.mem_cons, List.mem_singleton] at hc
    rcases hc with hc | hc | hc
    · subst hc; decide
    · subst hc
      rcases hdk with hd | hk
      · exact isDigitC_pyLower_id hd
      · subst hk; decide
    · cases hc

/-- Re-validating a canonically formatted ID accepts it unchanged. -/
theorem validate_rut_canonical (body : PyStr) (last : Char) (lenient dotted : Bool)
    (hb : ∀ c ∈ body, isDigitC c = true) (hlen : 6 ≤ body.length)
    (hlast : rut_last_digit body = last) :
    validate_rut (some (rutFinish body last dotted)) lenient dotted =
      .ok (rutFinish body last dotted) := by
  have hdk : isDigitC last = true ∨ last = 'k' := hlast ▸ rut_last_digit_digit_or_k body
  set F : PyStr := if dotted then dotFmt body else body with hFdef
  have hF_body : ∀ c ∈ F, isBodyC c = true := by
    cases dotted with
    | true => simpa [hFdef] using mem_dotFmt_isBody hb
    | false =>
      intro c hc
      exact isDigitC_isBodyC (hb c (by simpa [hFdef] using hc))
  have hF_filter : F.filter isDigitC = body := by
    cases dotted with
    | true => simpa [hFdef] using filter_dotFmt hb
    | false => simpa [hFdef] using List.filter_eq_self.mpr hb
  have hraw : rutFinish body last dotted = F ++ ['-', last] := rutFinish_raw dotted hb hdk
  have hall_lower : ∀ c ∈ F ++ ['-', last], pyLower c = c := by
    intro c hc
    rw [List.mem_append] at hc
    rcases hc with hc | hc
    · exact isBodyC_pyLower_id (hF_body c hc)
    · simp only [List.mem_cons, List.mem_singleton] at hc
      rcases hc with hc | hc | hc
      · subst hc; decide
      · subst hc
        rcases hdk with hd | hk
        · exact isDigitC_pyLower_id hd
        · subst hk; decide
      · cases hc
  have hall_nospace : ∀ c ∈ F ++ ['-', last], isSpaceC c = false := by
    intro c hc
    rw [List.mem_append] at hc
    rcases hc with hc | hc
    · exact isBodyC_not_space (hF_body c hc)
    · simp only [List.mem_cons, List.mem_singleton] at hc
      rcases hc with hc | hc | hc
      · subst hc; decide
      · subst hc
        rcases hdk with hd | hk
        · exact isDigitC_not_space hd
        · subst hk; decide
      · cases hc
  have hrl : (pyStrip (F ++ ['-', last])).map pyLower = F ++ ['-', last] := by
    rw [pyStrip_eq_self hall_nospace]
    exact map_id_of_mem hall_lower
  have hne : F ++ ['-', last] ≠ [] := by simp
  have hFne : F ≠ [] := by
    intro h0
    rw [h0] at hF_filter
    simp at hF_filter
    rw [hF_filter] at hlen
    simp at hlen
  have hmatch : standardIdnMatch (F ++ ['-', last]) = some (F, last) := by
    obtain ⟨htw, hdw⟩ := @takeWhile_split Char isBodyC F '-' [last] hF_body (by decide)
    cases hFcons : F with
    | nil => exact absurd hFcons hFne
    | cons f0 frest =>
      rw [hFcons] at htw hdw
      simp only [standardIdnMatch, htw, hdw]
      rcases hdk with hd | hk
      · simp [hd, hFcons]
      · simp [hk, hFcons]
  rw [hraw]
  simp only [validate_rut, hrl, if_neg hne, hmatch, hF_filter, hlast]
  simp only [ne_eq, not_true_eq_false, if_false, rutCheckLenAndFinish, if_neg (by omega : ¬ body.length < 6)]
  rw [hraw]

/-- Claim C2: `validate_rut` is idempotent on every accepted ID — re-validating
its own output (with either leniency setting, same dotting) returns the output
unchanged — and the canonical output round-trips: dropping the trailing check
character and the dash and recomputing `rut_last_digit` on the remaining
digits yields that same check character. -/
theorem validate_rut_idempotent_and_roundtrip (rut : Option PyStr)
    (lenient lenient' dotted : Bool) (s : PyStr)
    (h : validate_rut rut lenient dotted = .ok s) :
    validate_rut (some s) lenient' dotted = .ok s ∧
      ∃ body last,
        s = (if dotted then dotFmt body else body) ++ ['-', last] ∧
        rut_last_digit body = last ∧
        body = (s.dropLast.dropLast).filter isDigitC ∧
        s.getLast? = some last := by
  obtain ⟨body, last, hb, hlen, hlast, hs⟩ := validate_rut_ok_shape h
  have hdk : isDigitC last = true ∨ last = 'k' := hlast ▸ rut_last_digit_digit_or_k body
  have hraw : s = (if dotted then dotFmt body else body) ++ ['-', last] :=
    hs.trans (rutFinish_raw dotted hb hdk)
  have hF_filter : (if dotted then dotFmt body else body).filter isDigitC = body := by
    cases dotted with
    | true => simpa using filter_dotFmt hb
    | false => simpa using List.filter_eq_self.mpr hb
  constructor
  · rw [hs]
    exact validate_rut_canonical body last lenient' dotted hb hlen hlast
  · refine ⟨body, last, hraw, hlast, ?_, ?_⟩
    · have hsplit : s = ((if dotted then dotFmt body else body) ++ ['-']) ++ [last] := by
        rw [hraw]; simp
      rw [hsplit, List.dropLast_concat, List.dropLast_concat, hF_filter]
    · have hsplit : s = ((if dotted then dotFmt body else body) ++ ['-']) ++ [last] := by
        rw [hraw]; simp
      rw [hsplit, List.getLast?_concat]

/-- Witness for C2 at the valid ID `"7654321-6"`: validation accepts it as
`"7.654.321-6"`, re-validation returns the same string, and the stripped body
recomputes to the same check digit. -/
theorem validate_rut_idempotent_and_roundtrip_witness :
    validate_rut (some (("7654321-6").toList)) false true =
        .ok (("7.654.321-6").toList) ∧
      validate_rut (some (("7.654.321-6").toList)) false true =
        .ok (("7.654.321-6").toList) ∧
      ∃ body last,
        ("7.654.321-6").toList = (if true then dotFmt body else body) ++ ['-', last] ∧
        rut_last_digit body = last ∧
        body = ((("7.654.321-6").toList).dropLast.dropLast).filter isDigitC ∧
        (("7.654.321-6").toList).getLast? = some last := by
  have h : validate_rut (some (("7654321-6").toList)) false true =
      .ok (("7.654.321-6").toList) := by decide
  have := validate_rut_idempotent_and_roundtrip (some (("7654321-6").toList))
    false false true (("7.654.321-6").toList) h
  exact ⟨h, this.1, this.2⟩

/-- Claim C6 (code bug): the two documented failure behaviours are not the
only ones.  On the digit-free input `"abc"` the unmatched branch computes
`body = ""` and `body[-1]` raises an uncaught `IndexError`, in lenient mode
as well as in strict mode — the function neither returns the `False`
sentinel nor raises a `ValidationError`. -/
theorem validate_rut_digit_free_input_crashes :
    validate_rut (some (("abc").toList)) true true = .crash ∧
      validate_rut (some (("abc").toList)) false true = .crash ∧
      (RutResult.crash ≠ .sentinel ∧
        ∀ v p r, RutResult.crash ≠ .error v p r) := by
  refine ⟨by decide, by decide, by decide, ?_⟩
  intro v p r h
  cases h

/-- Claim C10: on an input that does not match the hyphenated
body-dash-checkdigit format, the trailing digit is treated as an included
check digit exactly when it equals the check digit computed from the
preceding digits; otherwise the whole digit string is the body and a fresh
check digit is computed.  Consequently such an input is never rejected for a
mismatched check digit: any `ValidationError` it raises carries the
empty-input or the too-short reason. -/
theorem validate_rut_unhyphenated_rule (s : PyStr) (lenient dotted : Bool)
    (hm : standardIdnMatch ((pyStrip s).map pyLower) = none) :
    (∀ c0, (((pyStrip s).map pyLower).filter isDigitC).getLast? = some c0 →
      validate_rut (some s) lenient dotted =
        (if rut_last_digit ((((pyStrip s).map pyLower).filter isDigitC).dropLast) = c0
         then rutCheckLenAndFinish lenient dotted ((pyStrip s).map pyLower)
            ((((pyStrip s).map pyLower).filter isDigitC).dropLast) c0
         else rutCheckLenAndFinish lenient dotted ((pyStrip s).map pyLower)
            (((pyStrip s).map pyLower).filter isDigitC)
            (rut_last_digit (((pyStrip s).map pyLower).filter isDigitC)))) ∧
    (∀ v p r, validate_rut (some s) lenient dotted = .error v p r →
      r = emptyReason ∨ r = shortReason) := by
  set rl := (pyStrip s).map pyLower with hrl
  by_cases hnil : rl = []
  · constructor
    · intro c0 hc0
      rw [hnil] at hc0
      simp at hc0
    · intro v p r h
      simp only [validate_rut, ← hrl, hnil, if_pos rfl, throwLeniently] at h
      cases lenient with
      | true => simp at h
      | false => simp at h; left; exact h.2.2.symm
  · constructor
    · intro c0 hc0
      simp only [validate_rut, ← hrl, if_neg hnil, hm, hc0]
    · intro v p r h
      have finish : ∀ lenient dotted rl' body last,
          rutCheckLenAndFinish lenient dotted rl' body last = .error v p r →
            r = emptyReason ∨ r = shortReason := by
        intro lenient dotted rl' body last hf
        simp only [rutCheckLenAndFinish, throwLeniently] at hf
        split at hf
        · cases lenient with
          | true => simp at hf
          | false => simp at hf; right; exact hf.2.2.symm
        · cases hf
      cases hlast : (((pyStrip s).map pyLower).filter isDigitC).getLast? with
      | none =>
        simp only [validate_rut, ← hrl, if_neg hnil, hm, hlast] at h
        cases h
      | some c0 =>
        simp only [validate_rut, ← hrl, if_neg hnil, hm, hlast] at h
        split at h
        · exact finish _ _ _ _ _ h
        · exact finish _ _ _ _ _ h

/-- Witness for C10 at the un-hyphenated input `"123456785"`: the trailing
`'5'` equals the check digit of `"12345678"`, so it is consumed as the check
digit and the canonical dotted form is returned. -/
theorem validate_rut_unhyphenated_rule_witness :
    standardIdnMatch ((pyStrip (("123456785").toList)).map pyLower) = none ∧
      validate_rut (some (("123456785").toList)) false true =
        .ok (("12.345.678-5").toList) ∧
      (∀ v p r,
        validate_rut (some (("123456785").toList)) false true = .error v p r →
          r = emptyReason ∨ r = shortReason) := by
  have hm : standardIdnMatch ((pyStrip (("123456785").toList)).map pyLower) = none := by
    decide
  have h := validate_rut_unhyphenated_rule (("123456785").toList) false true hm
  refine ⟨hm, ?_, h.2⟩
  have h1 := h.1 '5' (by decide)
  rw [h1]
  decide

/-! ## `validators.normalize_full_name` (validators.py lines 220-256) -/

/-- The lowercase connective words of `TITLE_IGNORE_ES`. -/
def titleIgnoreEs : List PyStr :=
  [("y").toList, ("e").toList, ("o").toList, ("u").toList, ("a").toList,
   ("al").toList, ("del").toList, ("de").toList, ("el").toList, ("la").toList,
   ("los").toList, ("las").toList, ("en").toList, ("para").toList]

/-- The keys of `NAME_PREFIXES_ES` (membership `part in NAME_PREFIXES_ES`
tests keys; the mapped values are never used by `join_prefixed_names`). -/
def namePrefixKeysEs : List PyStr :=
  [("de").toList, ("de la").toList, ("del").toList, ("san").toList]

/-- State-machine core of `MORE_THAN_ONE_SPACE.sub(" ", s)` for the pattern
`\s\s+`: scanning left to right, a maximal whitespace run of two or more
characters is replaced by one space, a lone whitespace character is copied
unchanged.  The state carries the pending run's first character and whether a
second one was seen. -/
def collapseWsAux : Option (Char × Bool) → PyStr → PyStr
  | none, [] => []
  | some (c, more), [] => if more then [' '] else [c]
  | none, c :: rest =>
    if isSpaceC c then collapseWsAux (some (c, false)) rest
    else c :: collapseWsAux none rest
  | some (c, more), d :: rest =>
    if isSpaceC d then collapseWsAux (some (c, true)) rest
    else (if more then [' '] else [c]) ++ d :: collapseWsAux none rest

/-- `MORE_THAN_ONE_SPACE.sub(" ", s)`. -/
def collapseWs (l : PyStr) : PyStr := collapseWsAux none l

/-- The while-loop of `join_prefixed_names` viewed from its cursor: the loop
runs while at least two parts remain at or after the cursor; when the part
under the cursor is a prefix key it is joined with the following part and the
cursor moves past the joined part, otherwise the cursor just advances. -/
def joinPrefixedAux : List PyStr → List PyStr
  | x :: y :: rest =>
    if x ∈ namePrefixKeysEs then (x ++ ' ' :: y) :: joinPrefixedAux rest
    else x :: joinPrefixedAux (y :: rest)
  | l => l

/-- `validators.join_prefixed_names`: the cursor starts at index 1, so the
first part is never joined. -/
def join_prefixed_names : List PyStr → List PyStr
  | [] => []
  | a :: rest => a :: joinPrefixedAux rest

/-- `validators.normalize_full_name`: collapse whitespace runs, split on
single spaces, capitalize all but ignored connectives, join prefixed names,
then split into (first names, last names). -/
def normalize_full_name (full_name : PyStr) : PyStr × Option PyStr :=
  let parts := pySplit ' ' (collapseWs full_name)
  let parts := parts.map (fun p => if p ∈ titleIgnoreEs then p else pyCapitalize p)
  let parts := join_prefixed_names parts
  match parts with
  | [a] => (a, none)
  | [a, b] => (a, some b)
  | [a, b, c] => (a, some (b ++ ' ' :: c))
  | l => (pyJoin ' ' (l.take (l.length - 2)), some (pyJoin ' ' (l.drop (l.length - 2))))

/-- Claim C3 counterexample: on `"juan de la cruz perez"` the claimed result
`("Juan de la Cruz", "Perez")` is not what the code computes.  The join loop
merges `"de"` with `"la"` but then advances past the merged part, so the
parts become `["Juan", "de la", "Cruz", "Perez"]` and the 4-token split
yields `("Juan de la", "Cruz Perez")`. -/
theorem normalize_full_name_claim_counterexample :
    normalize_full_name (("juan de la cruz perez").toList) ≠
      ((("Juan de la Cruz").toList), some (("Perez").toList)) := by
  decide

/-- Claim C3 amended: `normalize_full_name("juan de la cruz perez")` returns
first names `"Juan de la"` and last names `"Cruz Perez"` (the prefix `"de"`
is joined with `"la"`, but the scan advances past the joined part, so it is
never re-joined with `"Cruz"`); `normalize_full_name("ana")` returns
`("Ana", None)` as claimed. -/
theorem normalize_full_name_prefix_join_actual :
    normalize_full_name (("juan de la cruz perez").toList) =
        ((("Juan de la").toList), some (("Cruz Perez").toList)) ∧
      normalize_full_name (("ana").toList) = ((("Ana").toList), none) := by
  constructor
  · decide
  · decide

/-! ## `parser.money_from_compound` (parser.py lines 22-25) -/

/-- Uncaught Python exceptions surfacing from the parser.  None of the
constructors carries a document field identifier. -/
inductive PyErr where
  /-- A `None` value reached an operation needing a string
  (`TypeError` / `AttributeError`). -/
  | typeErrorNone
  /-- `datetime.strptime` rejected the text (`ValueError`). -/
  | valueErrorStrptime (s : PyStr)
  /-- `decimal.Decimal` rejected the text (`InvalidOperation`). -/
  | invalidDecimal (s : PyStr)
  /-- A raised `ValidationError` with its offending value, kind and reason. -/
  | validationError (value : Option PyStr) (parsing : PyStr) (reason : PyStr)
  /-- `IndexError` from an out-of-range subscript. -/
  | indexError
  /-- The failed `assert len(agil.modals) == len(groupby)`. -/
  | assertionError
deriving DecidableEq

/-- An exact decimal value `mantissa / 10 ^ scale`, the model of
`decimal.Decimal`. -/
structure PyDecimal where
  mantissa : Int
  scale : Nat
deriving DecidableEq

/-- The rational value denoted by a `PyDecimal` — exact, never a
floating-point approximation. -/
def PyDecimal.value (d : PyDecimal) : ℚ := (d.mantissa : ℚ) / (10 : ℚ) ^ d.scale

/-- Numeric value of a digit string. -/
def natOfDigits (l : PyStr) : Nat := l.foldl (fun acc c => 10 * acc + digitVal c) 0

/-- Modeled from the numeric-literal subset of `decimal.Decimal`'s string
constructor as exercised by the scraper: optional sign, an integer part
and an optional fractional part, at least one digit in total; no exponent
or special values.  `none` models the raised `InvalidOperation`. -/
def pyDecimal (s : PyStr) : Option PyDecimal :=
  let (sgn, t) : Int × PyStr :=
    match s with
    | '+' :: r => (1, r)
    | '-' :: r => (-1, r)
    | r => (1, r)
  let intPart := t.takeWhile isDigitC
  match t.dropWhile isDigitC with
  | [] =>
    if intPart = [] then none
    else some ⟨sgn * natOfDigits intPart, 0⟩
  | '.' :: frac =>
    if frac.all isDigitC ∧ (intPart ≠ [] ∨ frac ≠ []) then
      some ⟨sgn * natOfDigits (intPart ++ frac), frac.length⟩
    else none
  | _ => none

/-- `util.Money`: an exact decimal amount tagged with a currency code. -/
structure Money where
  amount : PyDecimal
  currency : PyStr
deriving DecidableEq

/-- `parser.money_from_compound` on the string path used by the scraper: a
bare `"$"` maps to `"clp"`, any other currency token is lowercased and used
as-is; the amount has its thousands dots stripped (`amount.replace(".", "")`)
and is converted by `Decimal`.  `Option` inputs model the possibly-`None`
element lookups the parser feeds in; a `None` currency crashes in
`currency.lower()`, a `None` amount crashes in `Decimal(None)`. -/
def money_from_compound (currency amount : Option PyStr) : Except PyErr Money :=
  match currency with
  | none => .error .typeErrorNone
  | some c =>
    let cur := if c = ("$").toList then ("clp").toList else c.map pyLower
    match amount with
    | none => .error .typeErrorNone
    | some a =>
      match pyDecimal (a.filter (fun ch => ch ≠ '.')) with
      | none => .error (.invalidDecimal a)
      | some d => .ok ⟨d, cur⟩

/-- Claim C7: `money_from_compound("$", "1.234.567")` yields exactly the
integer amount 1234567 — an exact decimal, equal to the rational 1234567 —
with the local currency code `"clp"`; and every currency token other than the
bare glyph is lowercased and used as the currency code as-is. -/
theorem money_from_compound_exact_and_currency :
    (money_from_compound (some (("$").toList)) (some (("1.234.567").toList)) =
        .ok ⟨⟨1234567, 0⟩, ("clp").toList⟩ ∧
      PyDecimal.value ⟨1234567, 0⟩ = (1234567 : ℚ)) ∧
    ∀ c : PyStr, c ≠ ("$").toList → ∀ a m,
      money_from_compound (some c) (some a) = .ok m → m.currency = c.map pyLower := by
  refine ⟨⟨rfl, by norm_num [PyDecimal.value]⟩, ?_⟩
  intro c hc a m h
  simp only [money_from_compound, if_neg hc] at h
  cases hd : pyDecimal (a.filter (fun ch => ch ≠ '.')) with
  | none => simp only [hd] at h; cases h
  | some d =>
    simp only [hd] at h
    cases h
    rfl

/-- Witness for C7's lowercasing clause at the non-glyph currency `"USD"`. -/
theorem money_from_compound_exact_and_currency_witness :
    (("USD").toList ≠ ("$").toList) ∧
      money_from_compound (some (("USD").toList)) (some (("5").toList)) =
        .ok ⟨⟨5, 0⟩, ("usd").toList⟩ ∧
      (Money.mk ⟨5, 0⟩ (("usd").toList)).currency = (("USD").toList).map pyLower := by
  refine ⟨by decide, rfl, ?_⟩
  exact money_from_compound_exact_and_currency.2 (("USD").toList) (by decide)
    (("5").toList) ⟨⟨5, 0⟩, ("usd").toList⟩ rfl

/-! ## Domain records (models.py), restricted to the fields the parser sets -/

/-- `models.BidType` (the parser always produces `AGIL`). -/
inductive BidType where
  | REGULAR
  | AGIL
deriving DecidableEq

/-- `models.BidStatus`. -/
inductive BidStatus where
  | PUBLISHED
  | CLOSED
  | BO_EMITTED
  | CANCELLED
deriving DecidableEq

/-- `models.ProductType`: shared code → name lookup. -/
structure ProductType where
  code : Nat
  name : PyStr
deriving DecidableEq

/-- `models.Product` as built by the parser: type code, quantity, title. -/
structure Product where
  type_code : Nat
  amount : Int
  title : PyStr
deriving DecidableEq

/-- `models.Organization` as built by the parser (only the key is set). -/
structure Organization where
  rut : PyStr
deriving DecidableEq

/-- `models.OrganizationName`. -/
structure OrganizationName where
  name : Option PyStr
  organization_rut : PyStr
deriving DecidableEq

/-- `models.Person` as built by the parser: normalized name parts and the
contact's phone numbers and email addresses. -/
structure Person where
  names : PyStr
  surnames : Option PyStr
  phone_numbers : List PyStr
  email_addresses : List PyStr
deriving DecidableEq

/-- A parsed `dd-mm-yyyy HH:MM:SS` timestamp (`MP_DATETIME_FORMAT`). -/
structure PyDateTime where
  year : Nat
  month : Nat
  day : Nat
  hour : Nat
  minute : Nat
  second : Nat
deriving DecidableEq

/-- A parsed `dd-mm-yyyy` date (`MP_DATE_FORMAT`). -/
structure PyDate where
  year : Nat
  month : Nat
  day : Nat
deriving DecidableEq

/-- `models.Bid` as built by the parser (`models.Currency` rows and the
relationship backrefs live in the store, not in the parsed record). -/
structure Bid where
  type : BidType
  idn : Option PyStr
  title : Option PyStr
  summary : Option PyStr
  published_at : PyDateTime
  closed_at : PyDateTime
  organization : OrganizationName
  sum : Money
  products : List Product
  contact : Person
  status : Option BidStatus
deriving DecidableEq

/-- `models.ApplicationProduct`: a quoted sum for one product line. -/
structure ApplicationProduct where
  sum : Money
  product : Product
deriving DecidableEq

/-- `models.Application`.  The `bid` field is the back-reference the parser
assigns in its final loop (`application.bid = bid`). -/
structure Application where
  products : List ApplicationProduct
  summary : PyStr
  organization : OrganizationName
  total_sum : Money
  accepted : Option Bool
  sent_at : PyDate
  bid : Option Bid
deriving DecidableEq

/-! ## Raw artifacts (crawler.AgilCrawlContents), at the parser's boundary -/

/-- One row of the `gvCategory` products table.  The bs4 traversal and the
text-to-number conversions of parser.py lines 84-89 are the artifact
boundary: a row carries the extracted cell values (product name, numeric
type code, summary, integer amount). -/
structure ProductRow where
  name : PyStr
  typeCode : Nat
  summary : PyStr
  amount : Int
deriving DecidableEq

/-- One modal blob after its double JSON decode (parser.py lines 168-176):
the envelope `{"d": <json-string>}` and the inner decode are performed by the
external `json` module; the record carries the two fields the parser reads. -/
structure ModalData where
  fechaEnvio : PyStr
  descripcion : PyStr
deriving DecidableEq

/-- One row of the provider-listing table after the `read_html` + `rename`
step (parser.py lines 137-157), carrying the renamed columns the parser
reads: the order column `j` and the organization / money text fields. -/
structure ListingRow where
  j : Nat
  organization_rut : PyStr
  organization_name : PyStr
  sum_currency : PyStr
  sum_per_unit : PyStr
  sum_total : PyStr
deriving DecidableEq

/-- The main detail document at the parser's boundary: element text by
element id (`soup.find(id=...)` and `.text`), the optional `gvCategory`
products table, and the text of the `gvSeleccionado` element when present. -/
structure MainSoup where
  texts : List (PyStr × PyStr)
  productTable : Option (List ProductRow)
  selectedText : Option PyStr
deriving DecidableEq

/-- `crawler.AgilCrawlContents`, restricted to the fields the parser reads
(`bo_pdf` and `bo_screen` are never touched by `parse_agil_into_db_model`). -/
structure AgilBundle where
  main : MainSoup
  modals : List ModalData
  modal_selected : Option PyStr
  provider_listing : Option (List ListingRow)
deriving DecidableEq

/-- Association-list lookup (insertion order preserved). -/
def lookupA {κ α : Type} [DecidableEq κ] (k : κ) : List (κ × α) → Option α
  | [] => none
  | (k', v) :: rest => if k = k' then some v else lookupA k rest

/-- `soup.find(id=id)` followed by `.text`: `none` models a missing element. -/
def soupText (soup : MainSoup) (id : PyStr) : Option PyStr :=
  lookupA id soup.texts

/-- `parser.text_by_id`: one optional text per requested element id, in
order (`element and element.text`). -/
def text_by_id (soup : MainSoup) (ids : List PyStr) : List (Option PyStr) :=
  ids.map (soupText soup)

/-- `parser.str_to_bid_status`: the closed status-text mapping; anything
else (including a missing element) yields no status. -/
def str_to_bid_status (value : Option PyStr) : Option BidStatus :=
  if value = some (("OC Emitida").toList) then some .BO_EMITTED
  else if value = some (("Cerrada").toList) then some .CLOSED
  else if value = some (("Cancelada").toList) then some .CANCELLED
  else if value = some (("Publicada").toList) then some .PUBLISHED
  else none

/-! ## Timestamp parsing (`datetime.strptime` with the fixed formats) -/

/-- Both characters decimal digits, combined into a two-digit value. -/
def d2v (a b : Char) : Option Nat :=
  if isDigitC a && isDigitC b then some (10 * digitVal a + digitVal b) else none

/-- `datetime.strptime(s, "%d-%m-%Y %H:%M:%S")` on the zero-padded texts the
portal emits; field ranges are checked, day-within-month validity beyond
1..31 is not modeled (no claim depends on it). -/
def parseDT (s : PyStr) : Option PyDateTime :=
  match s with
  | [d1, d0, '-', m1, m0, '-', y3, y2, y1, y0, ' ',
     h1, h0, ':', n1, n0, ':', t1, t0] => do
    let dd ← d2v d1 d0
    let mm ← d2v m1 m0
    let yhi ← d2v y3 y2
    let ylo ← d2v y1 y0
    let hh ← d2v h1 h0
    let nn ← d2v n1 n0
    let tt ← d2v t1 t0
    if 1 ≤ dd ∧ dd ≤ 31 ∧ 1 ≤ mm ∧ mm ≤ 12 ∧ hh ≤ 23 ∧ nn ≤ 59 ∧ tt ≤ 61 then
      some ⟨100 * yhi + ylo, mm, dd, hh, nn, tt⟩
    else none
  | _ => none

/-- `datetime.strptime(s, "%d-%m-%Y").date()` (same modeling notes). -/
def parseD (s : PyStr) : Option PyDate :=
  match s with
  | [d1, d0, '-', m1, m0, '-', y3, y2, y1, y0] => do
    let dd ← d2v d1 d0
    let mm ← d2v m1 m0
    let yhi ← d2v y3 y2
    let ylo ← d2v y1 y0
    if 1 ≤ dd ∧ dd ≤ 31 ∧ 1 ≤ mm ∧ mm ≤ 12 then
      some ⟨100 * yhi + ylo, mm, dd⟩
    else none
  | _ => none

/-- `strptime` on a possibly-missing element text: `None` raises a
`TypeError`, unparsable text raises a `ValueError`; neither error carries the
element id. -/
def strptimeDateTime (s : Option PyStr) : Except PyErr PyDateTime :=
  match s with
  | none => .error .typeErrorNone
  | some t =>
    match parseDT t with
    | some dt => .ok dt
    | none => .error (.valueErrorStrptime t)

/-- `strptime` with the date-only format on a modal's submission-date text. -/
def strptimeDate (t : PyStr) : Except PyErr PyDate :=
  match parseD t with
  | some d => .ok d
  | none => .error (.valueErrorStrptime t)

/-! ## Lenient contact validators as called by the parser -/

/-- `validate_rut` in strict mode, as an exception-explicit computation (the
sentinel arm is unreachable with `lenient=False`). -/
def validateRutStrict (rut : Option PyStr) (dotted : Bool) : Except PyErr PyStr :=
  match validate_rut rut false dotted with
  | .ok s => .ok s
  | .sentinel => .error .indexError
  | .error v p r => .error (.validationError v p r)
  | .crash => .error .indexError

/-- Characters of the local part of `EMAIL_RE`
(`[a-zA-Z0-9.!#$%&’*+/=?^_`{|}~-]`, the quote being U+2019). -/
def isEmailLocalC (c : Char) : Bool :=
  isDigitC c || (65 ≤ c.toNat && c.toNat ≤ 90) || (97 ≤ c.toNat && c.toNat ≤ 122) ||
  ([33, 35, 36, 37, 38, 8217, 42, 43, 45, 46, 47, 61, 63, 94, 95, 96,
    123, 124, 125, 126] : List Nat).contains c.toNat

/-- Characters of a domain label of `EMAIL_RE` (`[a-zA-Z0-9-]`). -/
def isEmailDomainC (c : Char) : Bool :=
  isDigitC c || (65 ≤ c.toNat && c.toNat ≤ 90) || (97 ≤ c.toNat && c.toNat ≤ 122) ||
  c.toNat == 45

/-- The anchored `EMAIL_RE` match followed by `match[0].split("@")`: since
`@` belongs to neither character class, a match is exactly a nonempty local
part, one `@`, and nonempty `-`/alphanumeric labels joined by dots. -/
def emailSplit (t : PyStr) : Option (PyStr × PyStr) :=
  match pySplit '@' t with
  | [l, d] =>
    if !l.isEmpty && l.all isEmailLocalC &&
        (pySplit '.' d).all (fun lab => !lab.isEmpty && lab.all isEmailDomainC) then
      some (l, d)
    else none
  | _ => none

/-- `validate_email_address(address, lenient=True)` as called by the parser.
The empty-input branch calls `_throw_leniently` but misses its `return`, so a
`None` address falls through to `EMAIL_RE.match(None)` and raises a
`TypeError`; an empty or invalid string reaches the second branch and returns
the `False` sentinel (`none`); a valid address is returned with the domain
lowercased. -/
def validate_email_address_lenient (address : Option PyStr) : Except PyErr (Option PyStr) :=
  match address with
  | none => .error .typeErrorNone
  | some s =>
    let t := pyStrip s
    match emailSplit t with
    | some (l, d) => .ok (some (l ++ '@' :: d.map pyLower))
    | none => .ok none

/-- `validate_cl_phone_number(number, lenient=True)` as called by the parser.
The `phonenumbers` library is an external collaborator, abstracted as an
oracle mapping the stripped text to its E.164 form when it parses as a valid,
possible number and to `none` otherwise; every rejection branch returns the
`False` sentinel in lenient mode.  `str(None)` is the text `"None"`. -/
def validate_cl_phone_number_lenient (oracle : PyStr → Option PyStr)
    (number : Option PyStr) : Option PyStr :=
  let s := match number with
    | none => ("None").toList
    | some l => l
  let t := pyStrip s
  if t = [] then none else oracle t

/-- `normalize_full_name(full_name)` where the parser may pass `None`
(`full_name or ""`). -/
def normalize_full_name_py (o : Option PyStr) : PyStr × Option PyStr :=
  normalize_full_name (o.getD [])

/-! ## The parser (parser.py lines 36-238) -/

/-- The `gvCategory` loop (parser.py lines 80-99): `product_types.setdefault`
keeps the first `ProductType` recorded for a code, and each row appends a
`Product` carrying that type's code. -/
def buildProducts : List ProductRow → List (Nat × ProductType) →
    List (Nat × ProductType) × List Product
  | [], pts => (pts, [])
  | r :: rs, pts =>
    let step : ProductType × List (Nat × ProductType) :=
      match lookupA r.typeCode pts with
      | some pt => (pt, pts)
      | none => (⟨r.typeCode, r.name⟩, pts ++ [(r.typeCode, ⟨r.typeCode, r.name⟩)])
    let rec1 := buildProducts rs step.2
    (rec1.1, Product.mk step.1.code r.amount r.summary :: rec1.2)

/-- The per-application product loop (parser.py lines 188-194): row `idx` of
the sheet's product rows is paired with `products[idx]` — positionally with
the bid's own product list; an out-of-range index raises `IndexError`. -/
def buildAppProducts (products : List Product) (cur : PyStr) :
    Nat → List ListingRow → Except PyErr (List ApplicationProduct)
  | _, [] => .ok []
  | idx, r :: rs => do
    let m ← money_from_compound (some cur) (some r.sum_per_unit)
    match products[idx]? with
    | none => .error .indexError
    | some p => do
      let rest ← buildAppProducts products cur (idx + 1) rs
      return ApplicationProduct.mk m p :: rest

/-- `df_applications["j"].max()` over the order column. -/
def maxJ (rows : List ListingRow) : Nat := (rows.map (fun r => r.j)).foldl max 0

/-- The per-group loop of parser.py lines 167-214, over the positional pairs
of modal blobs and sheet groups. -/
def processPairs (selected_rut : Option PyStr) (products : List Product) :
    List (ModalData × List ListingRow) →
      Except PyErr (List Application × List OrganizationName × List Organization)
  | [] => .ok ([], [], [])
  | (modal, sheet) :: rest => do
    let sent_at ← strptimeDate modal.fechaEnvio
    let product_summary := modal.descripcion
    match sheet with
    | [] => .error .indexError
    | total_row :: product_rows => do
      let organization_rut ← validateRutStrict (some total_row.organization_rut) true
      let total_sum ← money_from_compound (some total_row.sum_currency)
        (some total_row.sum_total)
      let application_products ← buildAppProducts products total_row.sum_currency 0
        product_rows
      let application_organization : OrganizationName :=
        ⟨some total_row.organization_name, organization_rut⟩
      let accepted := selected_rut.map (fun sr => sr == organization_rut)
      let application : Application :=
        ⟨application_products, product_summary, application_organization,
          total_sum, accepted, sent_at, none⟩
      let next ← processPairs selected_rut products rest
      return (application :: next.1, application_organization :: next.2.1,
        Organization.mk organization_rut :: next.2.2)

/-- Lines 130-133: when a provider has already been selected
(`agil.modal_selected` truthy) the selected organization's ID is read from
the `gvSeleccionado` element (a missing element crashes in the chained
`find`) and validated strictly. -/
def resolveSelected (agil : AgilBundle) : Except PyErr (Option PyStr) :=
  if (agil.modal_selected.getD []) ≠ [] then
    match agil.main.selectedText with
    | none => Except.error PyErr.typeErrorNone
    | some t => (validateRutStrict (some t) true).map some
  else .ok none

/-- The modal/provider-listing section (parser.py lines 127-214): taken only
when both modal blobs and the listing export are present; resolves the
selected provider, groups the listing rows into chunks of
`max(order column) + 1`, asserts the group count equals the modal count and
pairs them positionally. -/
def parseApplicationsSection (agil : AgilBundle) (products : List Product) :
    Except PyErr (List Application × List OrganizationName × List Organization) :=
  match agil.provider_listing with
  | none => .ok ([], [], [])
  | some rows =>
    match agil.modals with
    | [] => .ok ([], [], [])
    | m :: ms => do
      let selected_rut ← resolveSelected agil
      let groups := chunks (maxJ rows + 1) rows
      if (m :: ms).length = groups.length then
        processPairs selected_rut products ((m :: ms).zip groups)
      else .error .assertionError

/-- `parser.ParseAgilResultModels`, with the parsed applications carried
explicitly (in the source they are reachable from the session through the
`application.bid` back-references set in the final loop). -/
structure ParsedModels where
  bid : Bid
  product_types : List (Nat × ProductType)
  person : Person
  organization_names : List OrganizationName
  organizations : List Organization
  applications : List Application
deriving DecidableEq

/-- `parser.parse_agil_into_db_model`, exception-explicit, over the artifact
boundary of `AgilBundle`; `oracle` abstracts the external `phonenumbers`
library (see `validate_cl_phone_number_lenient`). -/
def parse_agil_into_db_model (oracle : PyStr → Option PyStr) (agil : AgilBundle) :
    Except PyErr ParsedModels := do
  let title := soupText agil.main (("lblTextName").toList)
  let summary := soupText agil.main (("lblTextDescription").toList)
  let published_at_txt := soupText agil.main (("lblFechaPublicacion").toList)
  let closed_at_txt := soupText agil.main (("lblFechaCierre").toList)
  let sum_currency := soupText agil.main (("lblMonedaSymbol").toList)
  let sum_amount := soupText agil.main (("lblMontoTotalDisponible").toList)
  let contact_names := soupText agil.main (("lblDescContacto").toList)
  let contact_phone_number := soupText agil.main (("lblDescTelefono").toList)
  let contact_email_address := soupText agil.main (("lblDescEmail").toList)
  let organization_name := soupText agil.main (("lblNombreOrganismo").toList)
  let organization_rut_txt := soupText agil.main (("lblRutOrganismo").toList)
  let idn := soupText agil.main (("lblExternalCodeQuote").toList)
  let status := soupText agil.main (("lblrstStatus").toList)
  let built := buildProducts (agil.main.productTable.getD []) []
  let published_at ← strptimeDateTime published_at_txt
  let closed_at ← strptimeDateTime closed_at_txt
  let organization_rut ← validateRutStrict organization_rut_txt false
  let organization_name_model : OrganizationName := ⟨organization_name, organization_rut⟩
  let sum ← money_from_compound sum_currency sum_amount
  let contact_phone := validate_cl_phone_number_lenient oracle contact_phone_number
  let contact_email ← validate_email_address_lenient contact_email_address
  let fullName := normalize_full_name_py contact_names
  let contact : Person := ⟨fullName.1, fullName.2,
    match contact_phone with
    | some n => [n]
    | none => [],
    match contact_email with
    | some e => [e]
    | none => []⟩
  let sectionOut ← parseApplicationsSection agil built.2
  let bid : Bid := ⟨BidType.AGIL, idn, title, summary, published_at, closed_at,
    organization_name_model, sum, built.2, contact, str_to_bid_status status⟩
  let applications := sectionOut.1.map (fun a => { a with bid := some bid })
  return ⟨bid, built.1, contact,
    organization_name_model :: sectionOut.2.1,
    Organization.mk organization_rut :: sectionOut.2.2,
    applications⟩

/-- Claim C4: with both a provider-listing table and modal blobs present, the
listing is split into chunks of `max(order column) + 1` rows (all full except
possibly the last, and losing no row), chunk `i` is paired positionally with
modal blob `i`, and whenever the group count differs from the modal count the
section fails (with the hard `AssertionError` once the selected-provider
lookup has succeeded) — it never silently truncates to the shorter side. -/
theorem provider_grouping_fail_fast (agil : AgilBundle) (products : List Product)
    (rows : List ListingRow) (m : ModalData) (ms : List ModalData)
    (hl : agil.provider_listing = some rows) (hm : agil.modals = m :: ms) :
    (chunks (maxJ rows + 1) rows).flatten = rows ∧
    (∀ i, i + 1 < (chunks (maxJ rows + 1) rows).length →
      ((chunks (maxJ rows + 1) rows).getD i []).length = maxJ rows + 1) ∧
    ((m :: ms).length ≠ (chunks (maxJ rows + 1) rows).length →
      (∀ res, parseApplicationsSection agil products ≠ .ok res) ∧
      (∀ sel, resolveSelected agil = .ok sel →
        parseApplicationsSection agil products = .error .assertionError)) ∧
    ((m :: ms).length = (chunks (maxJ rows + 1) rows).length →
      parseApplicationsSection agil products =
        (resolveSelected agil).bind (fun sel =>
          processPairs sel products ((m :: ms).zip (chunks (maxJ rows + 1) rows)))) := by
  have hsec : parseApplicationsSection agil products =
      (resolveSelected agil).bind (fun sel =>
        if (m :: ms).length = (chunks (maxJ rows + 1) rows).length then
          processPairs sel products ((m :: ms).zip (chunks (maxJ rows + 1) rows))
        else .error .assertionError) := by
    simp only [parseApplicationsSection, hl, hm]
    rfl
  refine ⟨chunks_join _ _, fun i hi => chunks_full _ _ i hi, ?_, ?_⟩
  · intro hne
    constructor
    · intro res
      rw [hsec]
      cases hres : resolveSelected agil with
      | error e => simp [Except.bind]
      | ok sel =>
        simp only [Except.bind]
        rw [if_neg hne]
        simp
    · intro sel hsel
      rw [hsec, hsel]
      simp only [Except.bind]
      rw [if_neg hne]
  · intro heq
    rw [hsec]
    cases hres : resolveSelected agil with
    | error e => simp [Except.bind]
    | ok sel =>
      simp only [Except.bind]
      rw [if_pos heq]

/-- A provider-listing row whose order column is zero and whose text cells
are empty, for the C4 witness. -/
def c4Row : ListingRow := ⟨0, [], [], [], [], []⟩

/-- Three listing rows: with `max(order column) + 1 = 1` they form three
groups. -/
def c4Rows : List ListingRow := [c4Row, c4Row, c4Row]

/-- A single modal blob for the C4 witness. -/
def c4Modal : ModalData := ⟨("01-02-2023").toList, ("detalle").toList⟩

/-- A bundle with three listing groups but one modal blob. -/
def c4Bundle : AgilBundle := ⟨⟨[], none, none⟩, [c4Modal], none, some c4Rows⟩

/-- Witness for C4: on a bundle with three one-row groups and a single modal
blob, the chunks cover the table and the section fails with the assertion
error instead of truncating. -/
theorem provider_grouping_fail_fast_witness :
    (chunks (maxJ c4Rows + 1) c4Rows).flatten = c4Rows ∧
      (1 : Nat) ≠ (chunks (maxJ c4Rows + 1) c4Rows).length ∧
      parseApplicationsSection c4Bundle [] = .error .assertionError := by
  have h := provider_grouping_fail_fast c4Bundle [] c4Rows c4Modal [] rfl rfl
  refine ⟨h.1, by decide, ?_⟩
  exact (h.2.2.1 (by decide)).2 none rfl

/-- Every application product built by the per-line loop references a member
of the given product list (it is `products[idx]` for some in-range `idx`). -/
theorem buildAppProducts_mem (products : List Product) (cur : PyStr) :
    ∀ (rows : List ListingRow) (idx : Nat) (l : List ApplicationProduct),
      buildAppProducts products cur idx rows = .ok l →
        ∀ ap ∈ l, ap.product ∈ products := by
  intro rows
  induction rows with
  | nil =>
    intro idx l h ap hap
    simp only [buildAppProducts] at h
    cases h
    cases hap
  | cons r rs ih =>
    intro idx l h ap hap
    simp only [buildAppProducts] at h
    cases hmon : money_from_compound (some cur) (some r.sum_per_unit) with
    | error e => rw [hmon] at h; simp [bind, Except.bind] at h
    | ok money =>
      rw [hmon] at h
      simp only [bind, Except.bind] at h
      cases hp : products[idx]? with
      | none => rw [hp] at h; cases h
      | some p =>
        rw [hp] at h
        simp only [bind, Except.bind] at h
        cases hrest : buildAppProducts products cur (idx + 1) rs with
        | error e => rw [hrest] at h; simp at h
        | ok restl =>
          rw [hrest] at h
          simp only [Functor.map, Except.map] at h
          cases h
          rcases List.mem_cons.mp hap with hap | hap
          · subst hap
            exact List.getElem?_mem hp
          · exact ih (idx + 1) restl hrest ap hap

/-- Every application built by the per-group loop has an unassigned bid
back-reference and draws its product lines from the given product list. -/
theorem processPairs_apps (selected_rut : Option PyStr) (products : List Product) :
    ∀ (pairs : List (ModalData × List ListingRow)) (out : List Application ×
        List OrganizationName × List Organization),
      processPairs selected_rut products pairs = .ok out →
        ∀ a ∈ out.1, a.bid = none ∧ ∀ ap ∈ a.products, ap.product ∈ products := by
  intro pairs
  induction pairs with
  | nil =>
    intro out h a ha
    simp only [processPairs] at h
    cases h
    cases ha
  | cons pr rest ih =>
    intro out h a ha
    obtain ⟨modal, sheet⟩ := pr
    simp only [processPairs] at h
    cases hdate : strptimeDate modal.fechaEnvio with
    | error e => rw [hdate] at h; simp [bind, Except.bind] at h
    | ok sent_at =>
      rw [hdate] at h
      simp only [bind, Except.bind] at h
      cases sheet with
      | nil => cases h
      | cons total_row product_rows =>
        simp only at h
        cases hrut : validateRutStrict (some total_row.organization_rut) true with
        | error e => rw [hrut] at h; simp [bind, Except.bind] at h
        | ok organization_rut =>
          rw [hrut] at h
          simp only [bind, Except.bind] at h
          cases hmon : money_from_compound (some total_row.sum_currency)
              (some total_row.sum_total) with
          | error e => rw [hmon] at h; simp [bind, Except.bind] at h
          | ok total_sum =>
            rw [hmon] at h
            simp only [bind, Except.bind] at h
            cases happ : buildAppProducts products total_row.sum_currency 0
                product_rows with
            | error e => rw [happ] at h; simp [bind, Except.bind] at h
            | ok application_products =>
              rw [happ] at h
              simp only [bind, Except.bind] at h
              cases hnext : processPairs selected_rut products rest with
              | error e => rw [hnext] at h; simp [bind, Except.bind] at h
              | ok next =>
                rw [hnext] at h
                simp only [pure, Except.pure] at h
                cases h
                rcases List.mem_cons.mp ha with ha | ha
                · subst ha
                  exact ⟨rfl, buildAppProducts_mem products _ product_rows 0
                    application_products happ⟩
                · exact ih next hnext a ha

/-- Lifting `processPairs_apps` through the section wrapper. -/
theorem parseApplicationsSection_apps (agil : AgilBundle) (products : List Product)
    (out : List Application × List OrganizationName × List Organization)
    (h : parseApplicationsSection agil products = .ok out) :
    ∀ a ∈ out.1, a.bid = none ∧ ∀ ap ∈ a.products, ap.product ∈ products := by
  unfold parseApplicationsSection at h
  cases hl : agil.provider_listing with
  | none =>
    rw [hl] at h
    cases h
    intro a ha
    cases ha
  | some rows =>
    rw [hl] at h
    cases hm : agil.modals with
    | nil =>
      rw [hm] at h
      cases h
      intro a ha
      cases ha
    | cons m ms =>
      rw [hm] at h
      simp only [bind, Except.bind] at h
      cases hsel : resolveSelected agil with
      | error e => rw [hsel] at h; cases h
      | ok sel =>
        rw [hsel] at h
        simp only at h
        split at h
        · exact processPairs_apps sel products _ out h
        · cases h

/-- Inversion of a successful parse: the result is assembled from the
extracted fields — the bid's title, summary, identifier and status are the
optional element texts passed through unvalidated, its product list is the
one built from the products table, and the applications are the section's
applications with the bid back-reference assigned. -/
theorem parse_agil_ok_inv (oracle : PyStr → Option PyStr) (agil : AgilBundle)
    (r : ParsedModels) (h : parse_agil_into_db_model oracle agil = .ok r) :
    ∃ sectionOut, parseApplicationsSection agil
        (buildProducts (agil.main.productTable.getD []) []).2 = .ok sectionOut ∧
      r.applications = sectionOut.1.map (fun a => { a with bid := some r.bid }) ∧
      r.bid.products = (buildProducts (agil.main.productTable.getD []) []).2 ∧
      r.bid.title = soupText agil.main (("lblTextName").toList) ∧
      r.bid.summary = soupText agil.main (("lblTextDescription").toList) ∧
      r.bid.idn = soupText agil.main (("lblExternalCodeQuote").toList) ∧
      r.bid.status = str_to_bid_status (soupText agil.main (("lblrstStatus").toList)) := by
  unfold parse_agil_into_db_model at h
  simp only [bind] at h
  cases h1 : strptimeDateTime (soupText agil.main (("lblFechaPublicacion").toList)) with
  | error e => rw [h1] at h; simp [bind, Except.bind] at h
  | ok published_at =>
    rw [h1] at h
    simp only [bind, Except.bind] at h
    cases h2 : strptimeDateTime (soupText agil.main (("lblFechaCierre").toList)) with
    | error e => rw [h2] at h; simp [bind, Except.bind] at h
    | ok closed_at =>
      rw [h2] at h
      simp only [bind, Except.bind] at h
      cases h3 : validateRutStrict (soupText agil.main (("lblRutOrganismo").toList))
          false with
      | error e => rw [h3] at h; simp [bind, Except.bind] at h
      | ok organization_rut =>
        rw [h3] at h
        simp only [bind, Except.bind] at h
        cases h4 : money_from_compound (soupText agil.main (("lblMonedaSymbol").toList))
            (soupText agil.main (("lblMontoTotalDisponible").toList)) with
        | error e => rw [h4] at h; simp [bind, Except.bind] at h
        | ok sum =>
          rw [h4] at h
          simp only [bind, Except.bind] at h
          cases h5 : validate_email_address_lenient
              (soupText agil.main (("lblDescEmail").toList)) with
          | error e => rw [h5] at h; simp [bind, Except.bind] at h
          | ok contact_email =>
            rw [h5] at h
            simp only [bind, Except.bind] at h
            cases h6 : parseApplicationsSection agil
                (buildProducts (agil.main.productTable.getD []) []).2 with
            | error e => rw [h6] at h; simp [bind, Except.bind] at h
            | ok sectionOut =>
              rw [h6] at h
              simp only [pure, Except.pure] at h
              cases h
              exact ⟨sectionOut, rfl, rfl, rfl, rfl, rfl, rfl, rfl⟩

/-- Claim C9: whenever parsing succeeds, every application in the result is
linked back to the parsed bid, and every application product references a
product of that same bid's own product list (drawn positionally from it). -/
theorem application_products_belong_to_bid (oracle : PyStr → Option PyStr)
    (agil : AgilBundle) (r : ParsedModels)
    (h : parse_agil_into_db_model oracle agil = .ok r) :
    ∀ app ∈ r.applications, app.bid = some r.bid ∧
      ∀ ap ∈ app.products, ap.product ∈ r.bid.products := by
  obtain ⟨sectionOut, hsec, happs, hprods, -⟩ := parse_agil_ok_inv oracle agil r h
  intro app happ
  rw [happs] at happ
  obtain ⟨a, ha, rfl⟩ := List.mem_map.mp happ
  have hprop := parseApplicationsSection_apps agil _ sectionOut hsec a ha
  refine ⟨rfl, ?_⟩
  intro ap hap
  rw [hprods]
  exact hprop.2 ap hap

/-- A phone oracle rejecting every number (concrete instances below never
exercise the accepted branch). -/
def oracle0 : PyStr → Option PyStr := fun _ => none

/-- A main document with all fourteen element texts present and valid, one
products-table row, and no selected-provider element. -/
def c9Soup : MainSoup :=
  ⟨[((("lblTextName").toList), (("Compra").toList)),
    ((("lblTextDescription").toList), (("Detalle").toList)),
    ((("lblFechaPublicacion").toList), (("01-02-2023 10:00:00").toList)),
    ((("lblFechaCierre").toList), (("05-02-2023 18:00:00").toList)),
    ((("lblPlazoEntrega").toList), (("10 dias").toList)),
    ((("lblMonedaSymbol").toList), (("$").toList)),
    ((("lblMontoTotalDisponible").toList), (("1.234.567").toList)),
    ((("lblDescContacto").toList), (("ana diaz").toList)),
    ((("lblDescTelefono").toList), (("x").toList)),
    ((("lblDescEmail").toList), (("ana@ejemplo.cl").toList)),
    ((("lblNombreOrganismo").toList), (("Muni").toList)),
    ((("lblRutOrganismo").toList), (("7654321-6").toList)),
    ((("lblExternalCodeQuote").toList), (("1234-56-AG").toList)),
    ((("lblrstStatus").toList), (("Publicada").toList))],
   some [⟨("Prod").toList, 42, ("Resumen").toList, 3⟩],
   none⟩

/-- A provider listing with one group: a summary row (order 0) and one
product-line row (order 1). -/
def c9Rows : List ListingRow :=
  [⟨0, ("7654321-6").toList, ("Prov SA").toList, ("$").toList, [], ("1000").toList⟩,
   ⟨1, [], [], [], ("500").toList, []⟩]

/-- A bundle that parses successfully into one bid with one application. -/
def c9Bundle : AgilBundle :=
  ⟨c9Soup, [⟨("02-03-2023").toList, ("desc").toList⟩], none, some c9Rows⟩

/-- A throwaway record for total projection out of `Except`. -/
def fallbackModels : ParsedModels :=
  ⟨⟨.AGIL, none, none, none, ⟨0, 0, 0, 0, 0, 0⟩, ⟨0, 0, 0, 0, 0, 0⟩, ⟨none, []⟩,
    ⟨⟨0, 0⟩, []⟩, [], ⟨[], none, [], []⟩, none⟩, [], ⟨[], none, [], []⟩, [], [], []⟩

/-- Total projection of a parse outcome to its models. -/
def okModels : Except PyErr ParsedModels → ParsedModels
  | .ok r => r
  | .error _ => fallbackModels

/-- Witness for C9: the concrete bundle parses successfully into a bid with a
nonempty application list, and every application is linked to that bid with
its products drawn from the bid's product list. -/
theorem application_products_belong_to_bid_witness :
    parse_agil_into_db_model oracle0 c9Bundle =
        .ok (okModels (parse_agil_into_db_model oracle0 c9Bundle)) ∧
      (okModels (parse_agil_into_db_model oracle0 c9Bundle)).applications ≠ [] ∧
      ∀ app ∈ (okModels (parse_agil_into_db_model oracle0 c9Bundle)).applications,
        app.bid = some (okModels (parse_agil_into_db_model oracle0 c9Bundle)).bid ∧
        ∀ ap ∈ app.products,
          ap.product ∈ (okModels (parse_agil_into_db_model oracle0 c9Bundle)).bid.products := by
  refine ⟨rfl, by decide, ?_⟩
  exact application_products_belong_to_bid oracle0 c9Bundle _ rfl

/-- The main-document bundle of `c9Soup` with one element removed, no
products table, no modals and no provider listing: a crawl whose main detail
document lacks exactly one field. -/
def c8Bundle (missing : PyStr) : AgilBundle :=
  ⟨⟨c9Soup.texts.filter (fun p => p.1 != missing), none, none⟩, [], none, none⟩

/-- Claim C8 counterexample: a bundle whose main document lacks the required
title element does not make parsing fail at all — the parse succeeds, with
the bid's title simply absent.  (The claim asserts a parse failure naming
the missing field.) -/
theorem parse_missing_title_succeeds :
    parse_agil_into_db_model oracle0 (c8Bundle (("lblTextName").toList)) =
        .ok (okModels (parse_agil_into_db_model oracle0
          (c8Bundle (("lblTextName").toList)))) ∧
      (okModels (parse_agil_into_db_model oracle0
        (c8Bundle (("lblTextName").toList)))).bid.title = none := by
  exact ⟨rfl, rfl⟩

/-- Claim C8 amended: a missing required field never produces a failure
naming the field.  The title, summary, identifier and status element texts
are passed through unvalidated into the bid of every successful parse
(missing ones become absent values); a missing timestamp or a missing email
aborts parsing with a `None`-type error that names no field; a missing
organization ID aborts parsing with a `ValidationError` naming only the
validation kind `"RUT"` and the reason, not the document field. -/
theorem parse_missing_field_behavior :
    (∀ oracle agil r, parse_agil_into_db_model oracle agil = .ok r →
      r.bid.title = soupText agil.main (("lblTextName").toList) ∧
      r.bid.summary = soupText agil.main (("lblTextDescription").toList) ∧
      r.bid.idn = soupText agil.main (("lblExternalCodeQuote").toList) ∧
      r.bid.status = str_to_bid_status (soupText agil.main (("lblrstStatus").toList))) ∧
    parse_agil_into_db_model oracle0 (c8Bundle (("lblFechaPublicacion").toList)) =
      .error .typeErrorNone ∧
    parse_agil_into_db_model oracle0 (c8Bundle (("lblRutOrganismo").toList)) =
      .error (.validationError none rutKind emptyReason) ∧
    parse_agil_into_db_model oracle0 (c8Bundle (("lblDescEmail").toList)) =
      .error .typeErrorNone := by
  refine ⟨?_, rfl, rfl, rfl⟩
  intro oracle agil r h
  obtain ⟨-, -, -, -, ht, hs, hi, hst⟩ := parse_agil_ok_inv oracle agil r h
  exact ⟨ht, hs, hi, hst⟩

/-- Witness for C8's universal clause at the no-title bundle: the successful
parse carries the absent title through. -/
theorem parse_missing_field_behavior_witness :
    (okModels (parse_agil_into_db_model oracle0
        (c8Bundle (("lblTextName").toList)))).bid.title =
      soupText (c8Bundle (("lblTextName").toList)).main (("lblTextName").toList) ∧
    soupText (c8Bundle (("lblTextName").toList)).main (("lblTextName").toList) = none := by
  refine ⟨?_, rfl⟩
  have h : parse_agil_into_db_model oracle0 (c8Bundle (("lblTextName").toList)) =
      .ok (okModels (parse_agil_into_db_model oracle0
        (c8Bundle (("lblTextName").toList)))) := rfl
  exact (parse_missing_field_behavior.1 oracle0 _ _ h).1

/-! ## `database.merge_agil_models_into_db` (database.py lines 11-25) -/

/-- `models.Currency`: reference data, keyed by its code.  The merge step
never touches this table (currencies are seeded by `init_database`). -/
structure Currency where
  code : PyStr
  name : PyStr
deriving DecidableEq

/-- The store, as the tables the merge step can observe: rows in insertion
order, keyed by their natural key (`session.merge` upserts by primary key;
`session.add` appends). -/
structure Db where
  product_types : List (Nat × ProductType)
  organizations : List (PyStr × Organization)
  currencies : List (PyStr × Currency)
  bids : List Bid
deriving DecidableEq

/-- `session.merge` on one keyed row: replace in place when the key exists,
append otherwise. -/
def upsertRow {κ α : Type} [DecidableEq κ] (k : κ) (v : α) :
    List (κ × α) → List (κ × α)
  | [] => [(k, v)]
  | (k', v') :: rest =>
    if k = k' then (k, v) :: rest else (k', v') :: upsertRow k v rest

/-- A sequence of `session.merge` calls over a table. -/
def mergeTable {κ α : Type} [DecidableEq κ] (t : List (κ × α)) (l : List (κ × α)) :
    List (κ × α) :=
  l.foldl (fun t kv => upsertRow kv.1 kv.2 t) t

/-- `database.merge_agil_models_into_db`: upsert every `ProductType` value by
code and every `Organization` by its ID; insert the `Bid` only when no stored
bid carries its identifier, otherwise do nothing (the no-op placeholder). -/
def merge_agil_models_into_db (db : Db) (models : ParsedModels) : Db :=
  let pts := mergeTable db.product_types
    ((models.product_types.map Prod.snd).map (fun pt => (pt.code, pt)))
  let orgs := mergeTable db.organizations
    (models.organizations.map (fun o => (o.rut, o)))
  let bids := if db.bids.any (fun b => b.idn == models.bid.idn) then db.bids
    else db.bids ++ [models.bid]
  ⟨pts, orgs, db.currencies, bids⟩

theorem mergeTable_cons {κ α : Type} [DecidableEq κ] (t : List (κ × α)) (k : κ)
    (v : α) (l : List (κ × α)) :
    mergeTable t ((k, v) :: l) = mergeTable (upsertRow k v t) l := rfl

theorem lookupA_upsert_self {κ α : Type} [DecidableEq κ] (k : κ) (v : α) :
    ∀ t : List (κ × α), lookupA k (upsertRow k v t) = some v := by
  intro t
  induction t with
  | nil => simp [upsertRow, lookupA]
  | cons kv rest ih =>
    obtain ⟨k', v'⟩ := kv
    by_cases h : k = k'
    · subst h; simp [upsertRow, lookupA]
    · simp [upsertRow, lookupA, h, ih]

theorem lookupA_upsert_ne {κ α : Type} [DecidableEq κ] {k k' : κ} (v : α)
    (hne : k ≠ k') : ∀ t : List (κ × α), lookupA k (upsertRow k' v t) = lookupA k t := by
  intro t
  induction t with
  | nil => simp [upsertRow, lookupA, hne]
  | cons kv rest ih =>
    obtain ⟨k2, v2⟩ := kv
    by_cases h : k' = k2
    · subst h
      simp [upsertRow, lookupA, hne]
    · by_cases h2 : k = k2
      · subst h2; simp [upsertRow, lookupA, h]
      · simp [upsertRow, lookupA, h, h2, ih]

theorem upsert_collapse {κ α : Type} [DecidableEq κ] (k : κ) (v w : α) :
    ∀ t : List (κ × α), upsertRow k v (upsertRow k w t) = upsertRow k v t := by
  intro t
  induction t with
  | nil => simp [upsertRow]
  | cons kv rest ih =>
    obtain ⟨k', v'⟩ := kv
    by_cases h : k = k'
    · subst h; simp [upsertRow]
    · simp [upsertRow, h, ih]

theorem mem_keys_upsert_self {κ α : Type} [DecidableEq κ] (k : κ) (v : α) :
    ∀ t : List (κ × α), k ∈ (upsertRow k v t).map Prod.fst := by
  intro t
  induction t with
  | nil => simp [upsertRow]
  | cons kv rest ih =>
    obtain ⟨k', v'⟩ := kv
    by_cases h : k = k'
    · subst h; simp [upsertRow]
    · simp [upsertRow, h, ih]

theorem mem_keys_upsert_of_mem {κ α : Type} [DecidableEq κ] {k k' : κ}
    {t : List (κ × α)} (v : α)
    (hmem : k ∈ t.map Prod.fst) : k ∈ (upsertRow k' v t).map Prod.fst := by
  induction t with
  | nil => simp at hmem
  | cons kv rest ih =>
    obtain ⟨k2, v2⟩ := kv
    by_cases h : k' = k2
    · subst h
      simp only [List.map_cons, List.mem_cons] at hmem
      rcases hmem with hmem | hmem
      · subst hmem; simp [upsertRow]
      · simp [upsertRow, hmem]
    · simp only [List.map_cons, List.mem_cons] at hmem
      rcases hmem with hmem | hmem
      · subst hmem; simp [upsertRow, h]
      · simp only [upsertRow, if_neg h, List.map_cons, List.mem_cons]
        exact Or.inr (ih hmem)

/-- Upserts at distinct keys commute provided the first key is already
present (so neither order changes where rows sit). -/
theorem upsert_comm_of_mem {κ α : Type} [DecidableEq κ] {k k' : κ} (v v' : α)
    (hne : k ≠ k') :
    ∀ t : List (κ × α), k ∈ t.map Prod.fst →
      upsertRow k' v' (upsertRow k v t) = upsertRow k v (upsertRow k' v' t) := by
  intro t
  induction t with
  | nil => intro h; simp at h
  | cons kv rest ih =>
    intro hmem
    obtain ⟨k2, v2⟩ := kv
    by_cases h : k = k2
    · subst h
      simp [upsertRow, hne, Ne.symm hne]
    · by_cases h2 : k' = k2
      · subst h2
        simp only [List.map_cons, List.mem_cons] at hmem
        rcases hmem with hmem | hmem
        · exact absurd hmem h
        · simp [upsertRow, h, Ne.symm hne, hmem]
      · simp only [List.map_cons, List.mem_cons] at hmem
        rcases hmem with hmem | hmem
        · exact absurd hmem h
        · simp only [upsertRow, if_neg h, if_neg h2]
          rw [ih hmem]

theorem upsert_of_lookup_self {κ α : Type} [DecidableEq κ] {k : κ} {v : α} :
    ∀ {t : List (κ × α)}, lookupA k t = some v → upsertRow k v t = t := by
  intro t
  induction t with
  | nil => intro h; simp [lookupA] at h
  | cons kv rest ih =>
    obtain ⟨k', v'⟩ := kv
    intro h
    by_cases hk : k = k'
    · subst hk
      simp [lookupA] at h
      simp [upsertRow, h]
    · simp [lookupA, hk] at h
      simp [upsertRow, hk, ih h]

theorem mem_keys_mergeTable_of_mem {κ α : Type} [DecidableEq κ] {k : κ} :
    ∀ (l : List (κ × α)) (t : List (κ × α)), k ∈ t.map Prod.fst →
      k ∈ (mergeTable t l).map Prod.fst := by
  intro l
  induction l with
  | nil => intro t h; exact h
  | cons kv l ih =>
    intro t h
    obtain ⟨k', w⟩ := kv
    rw [mergeTable_cons]
    exact ih _ (mem_keys_upsert_of_mem w h)

/-- Overwriting a key that is both already stored and re-merged later makes
no difference to the final table. -/
theorem mergeTable_overwritten {κ α : Type} [DecidableEq κ] {k : κ} (v : α) :
    ∀ (l : List (κ × α)) (t : List (κ × α)), k ∈ t.map Prod.fst →
      k ∈ l.map Prod.fst →
      mergeTable (upsertRow k v t) l = mergeTable t l := by
  intro l
  induction l with
  | nil => intro t ht h; simp at h
  | cons kv l ih =>
    intro t ht h
    obtain ⟨k', w⟩ := kv
    rw [mergeTable_cons, mergeTable_cons]
    by_cases hk : k' = k
    · subst hk
      rw [upsert_collapse]
    · have hmem : k ∈ l.map Prod.fst := by
        simp only [List.map_cons, List.mem_cons] at h
        rcases h with h | h
        · exact absurd h.symm hk
        · exact h
      rw [upsert_comm_of_mem v w (fun hh => hk hh.symm) t ht]
      exact ih (upsertRow k' w t) (mem_keys_upsert_of_mem w ht) hmem

theorem lookupA_mergeTable_not_mem {κ α : Type} [DecidableEq κ] {k : κ} :
    ∀ (l : List (κ × α)) (t : List (κ × α)), k ∉ l.map Prod.fst →
      lookupA k (mergeTable t l) = lookupA k t := by
  intro l
  induction l with
  | nil => intro t h; rfl
  | cons kv l ih =>
    intro t h
    obtain ⟨k', w⟩ := kv
    simp only [List.map_cons, List.mem_cons, not_or] at h
    rw [mergeTable_cons, ih (upsertRow k' w t) h.2]
    exact lookupA_upsert_ne w h.1 t

/-- Re-merging the same rows leaves the table unchanged. -/
theorem mergeTable_idem {κ α : Type} [DecidableEq κ] :
    ∀ (l : List (κ × α)) (t : List (κ × α)),
      mergeTable (mergeTable t l) l = mergeTable t l := by
  intro l
  induction l with
  | nil => intro t; rfl
  | cons kv l ih =>
    intro t
    obtain ⟨k, v⟩ := kv
    rw [mergeTable_cons]
    conv_lhs => rw [mergeTable_cons]
    by_cases hmem : k ∈ l.map Prod.fst
    · rw [mergeTable_overwritten v l _
        (mem_keys_mergeTable_of_mem l _ (mem_keys_upsert_self k v t)) hmem]
      exact ih (upsertRow k v t)
    · have hl : lookupA k (mergeTable (upsertRow k v t) l) = some v := by
        rw [lookupA_mergeTable_not_mem l _ hmem]
        exact lookupA_upsert_self k v t
      rw [upsert_of_lookup_self hl]
      exact ih (upsertRow k v t)

/-- After one merge, a bid with the merged identifier is stored. -/
theorem merged_bid_present (db : Db) (models : ParsedModels) :
    (merge_agil_models_into_db db models).bids.any
      (fun b => b.idn == models.bid.idn) = true := by
  unfold merge_agil_models_into_db
  by_cases h : db.bids.any (fun b => b.idn == models.bid.idn) = true
  · simp [h]
  · rw [Bool.not_eq_true] at h
    simp [h]

/-- Claim C5: merging the same parsed graph twice equals merging it once —
`ProductType` and `Organization` rows are upserted by code and ID so no
duplicates appear, the untouched `Currency` table is unchanged by any merge,
the bid-row count is unchanged by the second merge, and a bid is inserted
exactly when its identifier is not yet stored (otherwise the merge leaves the
bid table as it was). -/
theorem merge_agil_idempotent (db : Db) (models : ParsedModels) :
    merge_agil_models_into_db (merge_agil_models_into_db db models) models =
        merge_agil_models_into_db db models ∧
      (merge_agil_models_into_db (merge_agil_models_into_db db models) models).bids.length =
        (merge_agil_models_into_db db models).bids.length ∧
      (∀ db' : Db, (merge_agil_models_into_db db' models).currencies = db'.currencies) ∧
      (∀ db' : Db, db'.bids.any (fun b => b.idn == models.bid.idn) = true →
        (merge_agil_models_into_db db' models).bids = db'.bids) ∧
      (∀ db' : Db, db'.bids.any (fun b => b.idn == models.bid.idn) = false →
        (merge_agil_models_into_db db' models).bids = db'.bids ++ [models.bid]) := by
  have hidem : merge_agil_models_into_db (merge_agil_models_into_db db models) models =
      merge_agil_models_into_db db models := by
    have hpresent := merged_bid_present db models
    unfold merge_agil_models_into_db at hpresent ⊢
    simp only [hpresent, if_true]
    refine congrArg₂ (fun a b => Db.mk a b _ _) ?_ ?_
    · exact mergeTable_idem _ _
    · exact mergeTable_idem _ _
  refine ⟨hidem, by rw [hidem], fun db' => rfl, ?_, ?_⟩
  · intro db' h
    unfold merge_agil_models_into_db
    simp [h]
  · intro db' h
    unfold merge_agil_models_into_db
    simp [h]

/-- Witness for C5 on a concrete store and parse result: a second merge is a
no-op, and the bid-presence clauses are exercised both ways. -/
theorem merge_agil_idempotent_witness :
    merge_agil_models_into_db (merge_agil_models_into_db ⟨[], [], [], []⟩
          (okModels (parse_agil_into_db_model oracle0 c9Bundle)))
        (okModels (parse_agil_into_db_model oracle0 c9Bundle)) =
      merge_agil_models_into_db ⟨[], [], [], []⟩
        (okModels (parse_agil_into_db_model oracle0 c9Bundle)) ∧
    (Db.mk [] [] [] []).bids.any
        (fun b => b.idn == (okModels (parse_agil_into_db_model oracle0 c9Bundle)).bid.idn) =
      false ∧
    (merge_agil_models_into_db ⟨[], [], [], []⟩
        (okModels (parse_agil_into_db_model oracle0 c9Bundle))).bids =
      ([] : List Bid) ++ [(okModels (parse_agil_into_db_model oracle0 c9Bundle)).bid] := by
  have h := merge_agil_idempotent ⟨[], [], [], []⟩
    (okModels (parse_agil_into_db_model oracle0 c9Bundle))
  refine ⟨h.1, rfl, ?_⟩
  exact h.2.2.2.2 ⟨[], [], [], []⟩ rfl

end Mpscraper
